import Mathlib

set_option maxRecDepth 4000

/-!
Shallow embedding of the wlog interactive session model
(src/internal/tuiapp/config.go, src/internal/tuiapp/editor.go, with the data
model from src/internal/app/app.go), together with proofs about the claims of
the specification.

Go maps `map[string][]Answer` are embedded as association lists with the usual
read-zero-value / write-replace / delete semantics.  `time.Now()` is passed in
as an explicit `now : String` parameter.  Machine `int`s that can be negative
(selection index, entry index sentinels) are embedded as `Int`.
-/

namespace Wlog

/-- app.go `Answer`. -/
structure Answer where
  time : String
  response : String
deriving DecidableEq, Repr

/-- app.go `DayLog.Answers`, a Go `map[string][]Answer`. -/
abbrev Record := List (String × List Answer)

/-- Go map read (no comma-ok): missing keys read as the zero value. -/
def recordLookup : Record → String → Option (List Answer)
  | [], _ => none
  | (k, v) :: rest, q => if k = q then some v else recordLookup rest q

/-- Go read `m.log.Answers[question]`. -/
def recordGet (r : Record) (q : String) : List Answer :=
  (recordLookup r q).getD []

/-- Go write `m.log.Answers[question] = l`. -/
def recordSet : Record → String → List Answer → Record
  | [], q, l => [(q, l)]
  | (k, v) :: rest, q, l => if k = q then (k, l) :: rest else (k, v) :: recordSet rest q l

/-- Go `delete(m.log.Answers, question)`. -/
def recordErase : Record → String → Record
  | [], _ => []
  | (k, v) :: rest, q => if k = q then recordErase rest q else (k, v) :: recordErase rest q

/-- The whitespace set of Go `unicode.IsSpace`, restricted to Latin-1 (the
cases reachable from keyboard and editor input). -/
def goIsSpace (c : Char) : Bool :=
  c == ' ' || c == '\t' || c == '\n' || c == '\u000B' || c == '\u000C' || c == '\r' ||
    c == '\u0085' || c == '\u00A0'

def trimSpaceList (l : List Char) : List Char :=
  ((l.dropWhile goIsSpace).reverse.dropWhile goIsSpace).reverse

/-- Go `strings.TrimSpace`. -/
def trimSpace (s : String) : String :=
  String.mk (trimSpaceList s.toList)

def splitOnNewline : List Char → List (List Char)
  | [] => [[]]
  | '\n' :: rest => [] :: splitOnNewline rest
  | c :: rest =>
    match splitOnNewline rest with
    | [] => [[c]]
    | part :: parts => (c :: part) :: parts

/-- Go `strings.Split(s, "\n")`. -/
def splitLines (s : String) : List String :=
  (splitOnNewline s.toList).map String.mk

def stripCRLF : List Char → List Char
  | [] => []
  | '\r' :: '\n' :: rest => '\n' :: stripCRLF rest
  | c :: rest => c :: stripCRLF rest

/-- editor.go `normalizeEditorContent`: CRLF to LF, then strip trailing newlines. -/
def normalizeEditorContent (value : String) : String :=
  String.mk (((stripCRLF value.toList).reverse.dropWhile (fun c => c == '\n')).reverse)

/-- editor.go `parseEditorLines`: non-empty whitespace-trimmed lines, in order. -/
def parseEditorLines (content : String) : List String :=
  if content = "" then []
  else ((splitLines content).map trimSpace).filter (fun l => l ≠ "")

/-- config.go `responsesForQuestion`. -/
def responsesForQuestion (entries : List Answer) : List String :=
  entries.map (fun a => a.response)

/-- One step of the pool-building loop in config.go `rebuildAnswers`
(`pool[ans.Response] = append(pool[ans.Response], ans.Time)`). -/
def poolInsert (pool : String → List String) (resp t : String) : String → List String :=
  fun s => if s = resp then pool s ++ [t] else pool s

/-- The `pool` map built by the first loop of config.go `rebuildAnswers`. -/
def buildPool (existing : List Answer) : String → List String :=
  existing.foldl (fun p a => poolInsert p a.response a.time) (fun _ => [])

/-- The second loop of config.go `rebuildAnswers`; `now` stands for
`time.Now().Format(time.RFC3339)`. -/
def rebuildLoop (pool : String → List String) (now : String) : List String → List Answer
  | [] => []
  | resp :: rest =>
    let r := trimSpace resp
    if r = "" then rebuildLoop pool now rest
    else
      match pool r with
      | [] => ⟨now, r⟩ :: rebuildLoop pool now rest
      | t :: ts => ⟨t, r⟩ :: rebuildLoop (fun s => if s = r then ts else pool s) now rest

/-- config.go `rebuildAnswers`. -/
def rebuildAnswers (existing : List Answer) (responses : List String) (now : String) :
    List Answer :=
  if responses = [] then [] else rebuildLoop (buildPool existing) now responses

/-- Spec §4.3, reconciliation model: consume the first remaining original entry whose
response text matches.  The entry sequence is kept in insertion = chronological order
(spec §3), so the first not-yet-reused matching entry carries the earliest
not-yet-reused timestamp among originals with identical text. -/
def removeFirstMatch (resp : String) : List Answer → Option (String × List Answer)
  | [] => none
  | a :: rest =>
    if a.response = resp then some (a.time, rest)
    else
      match removeFirstMatch resp rest with
      | some (t, rest2) => some (t, a :: rest2)
      | none => none

/-- Spec §4.3 stated in the spec's words: for each non-empty trimmed line, in buffer
order, reuse the earliest not-yet-reused timestamp among original entries with
identical response text (preserving multiplicity), or the fresh timestamp `now`. -/
def reconcileSpec (remaining : List Answer) (now : String) : List String → List Answer
  | [] => []
  | line :: rest =>
    let r := trimSpace line
    if r = "" then reconcileSpec remaining now rest
    else
      match removeFirstMatch r remaining with
      | some (t, remaining2) => ⟨t, r⟩ :: reconcileSpec remaining2 now rest
      | none => ⟨now, r⟩ :: reconcileSpec remaining now rest

/-- config.go `rowKind`. -/
inductive RowKind
  | question
  | entry
deriving DecidableEq, Repr

/-- config.go `listRow` (entryIndex is zero for question rows, as in Go). -/
structure ListRow where
  kind : RowKind
  question : String
  entryIndex : Nat
deriving DecidableEq, Repr

/-- The entry rows appended under one question header in `rebuildRows`. -/
def entryRowsFor (q : String) (n : Nat) : List ListRow :=
  (List.range n).map (fun i => ⟨RowKind.entry, q, i⟩)

/-- config.go model.rebuildRows. -/
def rebuildRows : List String → Record → Bool → List ListRow
  | [], _, _ => []
  | q :: qs, r, lm =>
    ⟨RowKind.question, q, 0⟩ ::
      ((if lm then entryRowsFor q (recordGet r q).length else []) ++ rebuildRows qs r lm)

/-- The loop of config.go model.rowIndexForQuestion (list mode on). -/
def rowIndexAux : List String → Record → Nat → Int → Int
  | [], _, _, _ => -1
  | _ :: _, _, 0, offset => offset
  | q :: qs, r, i + 1, offset => rowIndexAux qs r i (offset + 1 + (recordGet r q).length)

/-- config.go model.rowIndexForQuestion. -/
def rowIndexForQuestion (questions : List String) (r : Record) (listMode : Bool) (idx : Int) :
    Int :=
  if idx < 0 ∨ idx ≥ (questions.length : Int) then -1
  else if ¬ listMode then idx
  else rowIndexAux questions r idx.toNat 0

/-- config.go `indexRunes`: the source lists the digit runes 0-9 followed by the
lowercase letter runes a-z, written here as the two code-point ranges. -/
def indexRunes : List Char :=
  (List.range 10).map (fun i => Char.ofNat ('0'.toNat + i))
    ++ (List.range 26).map (fun i => Char.ofNat ('a'.toNat + i))

def runeToIndexAux : List Char → Nat → Char → Option Nat
  | [], _, _ => none
  | x :: xs, i, c => if x = c then some i else runeToIndexAux xs (i + 1) c

/-- config.go `runeToIndex` (Go returns `(0, false)` on a miss; modelled as `Option`). -/
def runeToIndex (c : Char) : Option Nat :=
  runeToIndexAux indexRunes 0 c

def questionIndexGo : List String → Nat → Option Nat → String → Option Nat
  | [], _, acc, _ => acc
  | x :: xs, i, acc, q => questionIndexGo xs (i + 1) (if x = q then some i else acc) q

/-- The `questionIndex` map built in model.refreshQuestions.  For a duplicated
question string the Go loop's last write wins, which this fold reproduces. -/
def questionIndexOf (qs : List String) (q : String) : Option Nat :=
  questionIndexGo qs 0 none q

def strLtList : List Char → List Char → Bool
  | [], [] => false
  | [], _ :: _ => true
  | _ :: _, [] => false
  | a :: as, b :: bs => if a = b then strLtList as bs else decide (a < b)

/-- Lexicographic string order (Go `sort.Strings` comparison, on code points). -/
def strLt (a b : String) : Bool :=
  strLtList a.toList b.toList

def insertSorted (s : String) : List String → List String
  | [] => [s]
  | x :: xs => if strLt x s then x :: insertSorted s xs else s :: x :: xs

/-- Go `sort.Strings` (any sorting algorithm gives the same result here: the
sorted keys are distinct Go map keys). -/
def sortStrings (l : List String) : List String :=
  l.foldr insertSorted []

/-- The extras loop of config.go `mergeQuestions`: question keys of the day's
record that carry entries and are not already listed. -/
def mergeExtras : Record → List String → List String
  | [], _ => []
  | (q, ans) :: rest, seen =>
    if ans = [] then mergeExtras rest seen
    else if q ∈ seen then mergeExtras rest seen
    else q :: mergeExtras rest (q :: seen)

/-- config.go `mergeQuestions`: configured questions, then the day's extra
question keys in sorted order. -/
def mergeQuestions (base : List String) (r : Record) : List String :=
  base ++ sortStrings (mergeExtras r base)

/-- config.go `jkDisableThreshold`. -/
def jkDisableThreshold : Nat := 20

/-- config.go `deleteConfirmState`. -/
structure DeleteConfirmState where
  question : String
  entryIndex : Int
deriving DecidableEq, Repr

/-- editor.go `editorResultMsg`. -/
structure EditorResultMsg where
  question : String
  entryIndex : Int
  responses : List String
  changed : Bool
  err : Option String
deriving DecidableEq, Repr

/-- config.go `model`, restricted to the fields the claims are about.  The view
and day fields, the text inputs and the window size do not interact with the
claimed properties and are omitted. -/
structure ModelState where
  cfgQuestions : List String
  record : Record
  questions : List String
  rows : List ListRow
  selected : Int
  listMode : Bool
  disableJKNav : Bool
  confirmDelete : Bool
  deleteConfirm : Option DeleteConfirmState
  confirmPrompt : String
  showDeletePrompt : Bool
  status : String
  statusSeq : Nat
  statusTimeout : Int
  statusTimer : Option Nat
  err : Option String
deriving DecidableEq, Repr

/-- config.go model.setStatus: bump the sequence number and arm a timer
carrying it (`statusTimer` models the pending `tea.Tick` command's payload). -/
def setStatus (st : ModelState) (text : String) : ModelState :=
  let st := { st with status := text, statusSeq := st.statusSeq + 1 }
  if text = "" ∨ st.statusTimeout ≤ 0 then { st with statusTimer := none }
  else { st with statusTimer := some st.statusSeq }

/-- The `statusTimeoutMsg` arm of config.go model.Update. -/
def handleStatusTimeout (st : ModelState) (seq : Nat) : ModelState :=
  if seq = st.statusSeq then { st with status := "" } else st

/-- config.go model.moveSelection. -/
def moveSelection (st : ModelState) (delta : Int) : ModelState :=
  if st.rows = [] then { st with selected := 0 }
  else
    let next := st.selected + delta
    let next := if next < 0 then 0 else next
    let next := if next ≥ (st.rows.length : Int) then (st.rows.length : Int) - 1 else next
    { st with selected := next }

/-- config.go model.jumpToIndex. -/
def jumpToIndex (st : ModelState) (c : Char) : ModelState × Bool :=
  match runeToIndex c with
  | none => (st, false)
  | some idx =>
    if (idx : Int) < 0 ∨ (idx : Int) ≥ (st.questions.length : Int) then (st, false)
    else
      let rowIdx := rowIndexForQuestion st.questions st.record st.listMode idx
      if rowIdx < 0 then (st, false)
      else ({ st with selected := rowIdx }, true)

/-- config.go model.currentRow. -/
def currentRow (st : ModelState) : Option ListRow :=
  if st.rows = [] ∨ st.selected < 0 ∨ st.selected ≥ (st.rows.length : Int) then none
  else st.rows[st.selected.toNat]?

/-- config.go model.selectQuestionByIndex (the index always comes from the
question index map, hence is non-negative). -/
def selectQuestionByIndex (st : ModelState) (idx : Nat) : ModelState :=
  if (idx : Int) ≥ (st.questions.length : Int) then st
  else
    let rowIdx := rowIndexForQuestion st.questions st.record st.listMode idx
    if rowIdx ≥ 0 then { st with selected := rowIdx } else st

/-- config.go model.selectQuestionByName. -/
def selectQuestionByName (st : ModelState) (question : String) : ModelState :=
  match questionIndexOf st.questions question with
  | some idx => selectQuestionByIndex st idx
  | none => st

/-- config.go model.refreshQuestions. -/
def refreshQuestions (st : ModelState) : ModelState :=
  let st := { st with deleteConfirm := none, confirmPrompt := "", showDeletePrompt := false }
  let questions := mergeQuestions st.cfgQuestions st.record
  let st := { st with
    questions := questions,
    disableJKNav := decide (questions.length ≥ jkDisableThreshold),
    rows := rebuildRows questions st.record st.listMode }
  if st.rows = [] then { st with selected := 0 }
  else if st.selected ≥ (st.rows.length : Int) then { st with selected := (st.rows.length : Int) - 1 }
  else st

/-- config.go model.toggleListMode. -/
def toggleListMode (st : ModelState) : ModelState :=
  let currentQuestion :=
    match currentRow st with
    | some row => row.question
    | none => ""
  let st := refreshQuestions { st with listMode := !st.listMode }
  if currentQuestion ≠ "" then
    match questionIndexOf st.questions currentQuestion with
    | some idx =>
      let rowIdx := rowIndexForQuestion st.questions st.record st.listMode idx
      if rowIdx ≥ 0 then { st with selected := rowIdx } else st
    | none => st
  else st

/-- The `case "j"` arm of config.go model.handleListKey. -/
def listKeyJ (st : ModelState) : ModelState :=
  if st.disableJKNav then (jumpToIndex st 'j').1 else moveSelection st 1

/-- The `case "k"` arm of config.go model.handleListKey. -/
def listKeyK (st : ModelState) : ModelState :=
  if st.disableJKNav then (jumpToIndex st 'k').1 else moveSelection st (-1)

/-- The default single-character arm of model.handleListKey (selection effect;
the auto-open activation that may follow a successful jump does not move the
selection further). -/
def listKeyOther (st : ModelState) (c : Char) : ModelState :=
  let r := if c.isAlpha then c.toLower else c
  if (r = 'j' ∨ r = 'k') ∧ ¬ st.disableJKNav then st
  else (jumpToIndex st r).1

/-- The record mutation of model.performDeleteEntry: remove one entry and drop
the question key when its sequence becomes empty. -/
def deleteEntryRecord (r : Record) (q : String) (idx : Nat) : Record :=
  let entries := (recordGet r q).eraseIdx idx
  if entries = [] then recordErase r q else recordSet r q entries

/-- config.go model.performDeleteEntry.  `saveOk` is the outcome of the
`app.SaveDayLog` call; the second component is the Record value handed to
SaveDayLog (`none` when no save is attempted). -/
def performDeleteEntry (st : ModelState) (q : String) (idx : Int) (saveOk : Bool) :
    ModelState × Option Record :=
  let entries := recordGet st.record q
  if idx < 0 ∨ idx ≥ (entries.length : Int) then (setStatus st "Entry not found.", none)
  else
    let record := deleteEntryRecord st.record q idx.toNat
    if ¬ saveOk then
      (setStatus { st with record := record, err := some "save failed" } "Failed to delete entry.",
        some record)
    else
      let st := { st with record := record, err := none }
      let st := { st with confirmPrompt := "", showDeletePrompt := false }
      let st := setStatus st "Entry deleted."
      let st := refreshQuestions st
      (selectQuestionByName st q, some record)

/-- config.go model.initiateEntryDelete. -/
def initiateEntryDelete (st : ModelState) (q : String) (idx : Int) (saveOk : Bool) :
    ModelState × Option Record :=
  let entries := recordGet st.record q
  if idx < 0 ∨ idx ≥ (entries.length : Int) then (setStatus st "Entry not found.", none)
  else if st.confirmDelete then
    let st := { st with deleteConfirm := some ⟨q, idx⟩ }
    ({ st with confirmPrompt := "Delete this entry? (y/n)", showDeletePrompt := true }, none)
  else performDeleteEntry st q idx saveOk

/-- config.go model.handleDeleteConfirmationKey; the Bool mirrors Go's
handled/not-handled return value. -/
def handleDeleteConfirmationKey (st : ModelState) (key : String) (saveOk : Bool) :
    (ModelState × Option Record) × Bool :=
  match st.deleteConfirm with
  | none => ((st, none), false)
  | some pending =>
    if key = "y" ∨ key = "Y" then
      let st := { st with deleteConfirm := none, confirmPrompt := "", showDeletePrompt := false }
      (performDeleteEntry st pending.question pending.entryIndex saveOk, true)
    else if key = "n" ∨ key = "N" ∨ key = "esc" then
      let st := { st with deleteConfirm := none, confirmPrompt := "", showDeletePrompt := false }
      ((setStatus st "Delete canceled.", none), true)
    else ((setStatus st "Confirm delete with y or n.", none), true)

def joinLines : List String → String
  | [] => ""
  | [x] => x
  | x :: rest => x ++ "\n" ++ joinLines rest

/-- The result-producing closure of editor.go `editEntriesCmd` on its success
path, as a function of the edited scratch-file content. -/
def editorSuccessMsg (question : String) (lines : List String) (entryIndex : Int)
    (edited : String) : EditorResultMsg :=
  let original := joinLines lines
  let newContent := normalizeEditorContent edited
  let originalContent := normalizeEditorContent original
  if newContent = originalContent then ⟨question, entryIndex, lines, false, none⟩
  else if entryIndex ≥ 0 then ⟨question, entryIndex, [newContent], true, none⟩
  else ⟨question, entryIndex, parseEditorLines newContent, true, none⟩

/-- The message editor.go `editEntriesCmd` produces when launching the editor
or writing/reading the scratch file fails. -/
def editorFailureMsg (question : String) (entryIndex : Int) (e : String) : EditorResultMsg :=
  ⟨question, entryIndex, [], false, some e⟩

/-- Go assignment `answers[idx].Response = responses[0]`: replace the response text at one
index, leaving the timestamp untouched. -/
def setResponseAt : List Answer → Nat → String → List Answer
  | [], _, _ => []
  | a :: rest, 0, resp => ⟨a.time, resp⟩ :: rest
  | a :: rest, n + 1, resp => a :: setResponseAt rest n resp

/-- The record mutation of model.applySingleEntryEdit (after the bounds check). -/
def singleEditRecord (r : Record) (q : String) (idx : Nat) (responses : List String) : Record :=
  let answers :=
    match responses with
    | [] => (recordGet r q).eraseIdx idx
    | r0 :: _ => setResponseAt (recordGet r q) idx r0
  if answers = [] then recordErase r q else recordSet r q answers

/-- config.go model.applySingleEntryEdit. -/
def applySingleEntryEdit (st : ModelState) (q : String) (idx : Int)
    (responses : List String) (saveOk : Bool) : ModelState × Option Record :=
  let answers := recordGet st.record q
  if idx < 0 ∨ idx ≥ (answers.length : Int) then (st, none)
  else
    let record := singleEditRecord st.record q idx.toNat responses
    if ¬ saveOk then ({ st with record := record, err := some "save failed" }, some record)
    else
      (refreshQuestions (setStatus { st with record := record, err := none } "Entry updated."),
        some record)

/-- The record mutation of model.applyQuestionEdit. -/
def questionEditRecord (r : Record) (q : String) (responses : List String) (now : String) :
    Record :=
  let updated := rebuildAnswers (recordGet r q) responses now
  if updated = [] then recordErase r q else recordSet r q updated

/-- config.go model.applyQuestionEdit. -/
def applyQuestionEdit (st : ModelState) (q : String) (responses : List String) (now : String)
    (saveOk : Bool) : ModelState × Option Record :=
  let record := questionEditRecord st.record q responses now
  if ¬ saveOk then ({ st with record := record, err := some "save failed" }, some record)
  else
    (refreshQuestions (setStatus { st with record := record, err := none } "Entries updated."),
      some record)

/-- config.go model.handleEditorResult. -/
def handleEditorResult (st : ModelState) (msg : EditorResultMsg) (now : String)
    (saveOk : Bool) : ModelState × Option Record :=
  match msg.err with
  | some e => ({ st with err := some e }, none)
  | none =>
    if ¬ msg.changed then (setStatus st "No changes saved.", none)
    else if msg.entryIndex ≥ 0 then
      applySingleEntryEdit st msg.question msg.entryIndex msg.responses saveOk
    else applyQuestionEdit st msg.question msg.responses now saveOk

/-- The record mutation of model.saveInlineEntry: append an entry. -/
def addEntryRecord (r : Record) (q : String) (entry : Answer) : Record :=
  recordSet r q (recordGet r q ++ [entry])

/-- config.go model.saveInlineEntry for detail question `q`. -/
def saveInlineEntry (st : ModelState) (q : String) (input now : String) (saveOk : Bool) :
    ModelState × Option Record :=
  let text := trimSpace input
  if text = "" then (setStatus st "Entry discarded (empty).", none)
  else
    let record := addEntryRecord st.record q ⟨now, text⟩
    if ¬ saveOk then ({ st with record := record, err := some "save failed" }, some record)
    else
      (refreshQuestions (setStatus { st with record := record, err := none } "Entry saved."),
        some record)

/-- config.go model.reloadDay with the freshly loaded record (day changes and
the jump to today reset the selection and rebuild everything). -/
def reloadDay (st : ModelState) (newRecord : Record) (dayLabel : String) : ModelState :=
  setStatus (refreshQuestions { st with record := newRecord, selected := 0 })
    ("Viewing " ++ dayLabel)

/-- config.go newModel (with the configuration flags already resolved). -/
def newModel (cfgQuestions : List String) (record : Record) (listMode confirmDelete : Bool)
    (statusTimeout : Int) : ModelState :=
  refreshQuestions {
    cfgQuestions := cfgQuestions, record := record,
    questions := [], rows := [], selected := 0,
    listMode := listMode, disableJKNav := false, confirmDelete := confirmDelete,
    deleteConfirm := none, confirmPrompt := "", showDeletePrompt := false,
    status := "", statusSeq := 0, statusTimeout := statusTimeout, statusTimer := none,
    err := none }

/-- Spec §3 invariant: no question key maps to an empty entry sequence. -/
def NoEmptyRecord (r : Record) : Prop :=
  ∀ p ∈ r, p.2 ≠ ([] : List Answer)

/-- The selection bounds invariant of claim C10. -/
def SelOK (st : ModelState) : Prop :=
  (st.rows = [] → st.selected = 0) ∧
    (st.rows ≠ [] → 0 ≤ st.selected ∧ st.selected < (st.rows.length : Int))

/-- A session state whose derived fields agree with the record, as established
by model.refreshQuestions. -/
def WFState (st : ModelState) : Prop :=
  st.questions = mergeQuestions st.cfgQuestions st.record ∧
    st.rows = rebuildRows st.questions st.record st.listMode

instance (st : ModelState) : Decidable (WFState st) := by
  unfold WFState
  infer_instance

instance (st : ModelState) : Decidable (SelOK st) := by
  unfold SelOK
  infer_instance

/-- A session just started with 21 configured questions, used on claim C2:
`disableJKNav` is armed at and above the threshold of 20. -/
def st21 : ModelState :=
  newModel ((List.range 21).map (fun i => "q" ++ toString i)) [] false true 1000

/-- A one-question session, used as a below-threshold witness state. -/
def stSmall : ModelState :=
  newModel ["Q"] [("Q", [⟨"09:00", "a"⟩])] true true 1000

/-- A session whose single question has two entries, with delete confirmation
enabled and list mode on, used on claim C3. -/
def stC3 : ModelState :=
  newModel ["Q"] [("Q", [⟨"09:00", "a"⟩, ⟨"09:05", "b"⟩])] true true 1000

/-- The pending-confirmation state reached by a delete request on the first
entry of `stC3`. -/
def stC3pending : ModelState :=
  (initiateEntryDelete stC3 "Q" 0 true).1

/-- A session with an empty-string question name selected, used on claim C8. -/
def stC8 : ModelState :=
  moveSelection (newModel ["A", ""] [("A", [⟨"09:00", "x"⟩])] false true 1000) 1

theorem poolFold_rep (l : List Answer) (p : String → List String) (s : String) :
    (l.foldl (fun p a => poolInsert p a.response a.time) p) s
      = p s ++ (l.filter (fun a => decide (a.response = s))).map (fun a => a.time) := by
  induction l generalizing p with
  | nil => simp
  | cons a rest ih =>
    rw [List.foldl_cons, ih]
    by_cases h : a.response = s
    · simp [poolInsert, h, List.filter_cons]
    · simp [poolInsert, h, List.filter_cons, Ne.symm h]

theorem buildPool_rep (existing : List Answer) (s : String) :
    buildPool existing s
      = (existing.filter (fun a => decide (a.response = s))).map (fun a => a.time) := by
  simpa [buildPool] using poolFold_rep existing (fun _ => []) s

theorem removeFirstMatch_eq_none (resp : String) (l : List Answer)
    (h : removeFirstMatch resp l = none) :
    l.filter (fun a => decide (a.response = resp)) = [] := by
  induction l with
  | nil => simp
  | cons a rest ih =>
    simp only [removeFirstMatch] at h
    by_cases ha : a.response = resp
    · simp [ha] at h
    · rw [if_neg ha] at h
      cases hm : removeFirstMatch resp rest with
      | some tl => rw [hm] at h; obtain ⟨t, l2⟩ := tl; simp at h
      | none => simp [List.filter_cons, ha, ih hm]

theorem removeFirstMatch_eq_some (resp : String) :
    ∀ (l : List Answer) (t : String) (l2 : List Answer),
      removeFirstMatch resp l = some (t, l2) →
      ((l.filter (fun a => decide (a.response = resp))).map (fun a => a.time)
          = t :: (l2.filter (fun a => decide (a.response = resp))).map (fun a => a.time))
      ∧ ∀ s, s ≠ resp →
          l2.filter (fun a => decide (a.response = s))
            = l.filter (fun a => decide (a.response = s)) := by
  intro l
  induction l with
  | nil => intro t l2 h; simp [removeFirstMatch] at h
  | cons a rest ih =>
    intro t l2 h
    simp only [removeFirstMatch] at h
    by_cases ha : a.response = resp
    · rw [if_pos ha] at h
      obtain ⟨ht, hl⟩ : a.time = t ∧ rest = l2 := by
        simpa using h
      subst ht
      subst hl
      refine ⟨by simp [List.filter_cons, ha], ?_⟩
      intro s hs
      have : ¬ a.response = s := by rw [ha]; exact fun e => hs e.symm
      simp [List.filter_cons, this]
    · rw [if_neg ha] at h
      cases hm : removeFirstMatch resp rest with
      | none => rw [hm] at h; simp at h
      | some tl =>
        obtain ⟨t2, rest2⟩ := tl
        rw [hm] at h
        obtain ⟨ht, hl⟩ : t2 = t ∧ a :: rest2 = l2 := by simpa using h
        subst hl
        subst ht
        obtain ⟨ih1, ih2⟩ := ih t2 rest2 hm
        refine ⟨by simpa [List.filter_cons, ha] using ih1, ?_⟩
        intro s hs
        by_cases has : a.response = s
        · simp [List.filter_cons, has, ih2 s hs]
        · simp [List.filter_cons, has, ih2 s hs]

theorem rebuildLoop_eq_reconcileSpec (responses : List String) :
    ∀ (pool : String → List String) (l : List Answer) (now : String),
      (∀ s, pool s = (l.filter (fun a => decide (a.response = s))).map (fun a => a.time)) →
      rebuildLoop pool now responses = reconcileSpec l now responses := by
  induction responses with
  | nil => intro pool l now _; rfl
  | cons resp rest ih =>
    intro pool l now hrep
    simp only [rebuildLoop, reconcileSpec]
    by_cases hr : trimSpace resp = ""
    · rw [if_pos hr, if_pos hr]
      exact ih pool l now hrep
    · rw [if_neg hr, if_neg hr]
      cases hm : removeFirstMatch (trimSpace resp) l with
      | none =>
        have h0 : pool (trimSpace resp) = [] := by
          rw [hrep, removeFirstMatch_eq_none _ _ hm]; rfl
        rw [h0]
        show (⟨now, trimSpace resp⟩ : Answer) :: rebuildLoop pool now rest
          = (⟨now, trimSpace resp⟩ : Answer) :: reconcileSpec l now rest
        exact congrArg _ (ih pool l now hrep)
      | some tl =>
        obtain ⟨t, l2⟩ := tl
        obtain ⟨h1, h2⟩ := removeFirstMatch_eq_some _ l t l2 hm
        have h0 : pool (trimSpace resp)
            = t :: (l2.filter (fun a => decide (a.response = trimSpace resp))).map
                (fun a => a.time) := by
          rw [hrep]; exact h1
        rw [h0]
        show (⟨t, trimSpace resp⟩ : Answer) ::
            rebuildLoop
              (fun s => if s = trimSpace resp then
                  (l2.filter (fun a => decide (a.response = trimSpace resp))).map
                    (fun a => a.time)
                else pool s) now rest
          = (⟨t, trimSpace resp⟩ : Answer) :: reconcileSpec l2 now rest
        congr 1
        apply ih
        intro s
        by_cases hs : s = trimSpace resp
        · subst hs; simp
        · rw [if_neg hs, hrep s, h2 s hs]

theorem rebuildAnswers_eq_reconcileSpec (existing : List Answer) (responses : List String)
    (now : String) :
    rebuildAnswers existing responses now = reconcileSpec existing now responses := by
  unfold rebuildAnswers
  by_cases h : responses = []
  · subst h; simp [reconcileSpec]
  · rw [if_neg h]
    exact rebuildLoop_eq_reconcileSpec responses (buildPool existing) existing now
      (fun s => buildPool_rep existing s)

theorem reconcileSpec_responses (now : String) :
    ∀ (responses : List String) (l : List Answer),
      (reconcileSpec l now responses).map (fun a => a.response)
        = (responses.map trimSpace).filter (fun s => s ≠ "") := by
  intro responses
  induction responses with
  | nil => intro l; rfl
  | cons resp rest ih =>
    intro l
    simp only [reconcileSpec, List.map_cons, List.filter_cons]
    by_cases hr : trimSpace resp = ""
    · simp [hr, ih l]
    · cases hm : removeFirstMatch (trimSpace resp) l with
      | none => simp [hr, ih l]
      | some tl => obtain ⟨t, l2⟩ := tl; simp [hr, ih l2]

theorem reconcileSpec_self (now : String) :
    ∀ entries : List Answer,
      (∀ a ∈ entries, trimSpace a.response = a.response ∧ a.response ≠ "") →
      reconcileSpec entries now (responsesForQuestion entries) = entries := by
  intro entries
  induction entries with
  | nil => intro _; rfl
  | cons a rest ih =>
    intro h
    obtain ⟨ht, hne⟩ := h a (List.mem_cons_self a rest)
    simp only [responsesForQuestion, List.map_cons, reconcileSpec, ht]
    rw [if_neg hne]
    rw [show removeFirstMatch a.response (a :: rest) = some (a.time, rest) by
      simp [removeFirstMatch]]
    have hrest := ih (fun b hb => h b (List.mem_cons_of_mem a hb))
    simp only [responsesForQuestion] at hrest
    show (⟨a.time, a.response⟩ : Answer) ::
        reconcileSpec rest now (rest.map (fun a => a.response)) = a :: rest
    rw [hrest]

/-- C4: a whole-question external edit replaces the question's entry list by the
buffer's non-empty trimmed lines in buffer order, each line reusing the earliest
not-yet-reused timestamp among original entries with identical text (multiplicity
preserved) or a fresh timestamp; `rebuildAnswers` coincides with the spec-level
reconciliation, and the spec's concrete scenario evaluates as stated. -/
theorem c4_whole_question_edit_reconciliation :
    (∀ (existing : List Answer) (responses : List String) (now : String),
        rebuildAnswers existing responses now = reconcileSpec existing now responses
        ∧ (rebuildAnswers existing responses now).map (fun a => a.response)
            = (responses.map trimSpace).filter (fun s => s ≠ ""))
    ∧ rebuildAnswers [⟨"09:00", "a"⟩, ⟨"09:05", "b"⟩, ⟨"09:10", "c"⟩]
        (parseEditorLines (normalizeEditorContent "c\na\nb\nd\n")) "10:00"
      = [⟨"09:10", "c"⟩, ⟨"09:00", "a"⟩, ⟨"09:05", "b"⟩, ⟨"10:00", "d"⟩] := by
  refine ⟨fun existing responses now => ⟨rebuildAnswers_eq_reconcileSpec .., ?_⟩, by decide⟩
  rw [rebuildAnswers_eq_reconcileSpec]
  exact reconcileSpec_responses now responses existing

/-- C6 counterexample: the entry list `[(09:00, " a")]` has a response that is
non-empty after trimming, yet reconciling against its own response lines yields
a different sequence (the text is trimmed to "a" and the timestamp is replaced
by the fresh one), so the claim as stated fails. -/
theorem c6_idempotence_counterexample :
    trimSpace " a" ≠ "" ∧
      rebuildAnswers [⟨"09:00", " a"⟩] (responsesForQuestion [⟨"09:00", " a"⟩]) "10:00"
        ≠ [⟨"09:00", " a"⟩] := by decide

/-- C6 (amended): whole-question reconciliation is idempotent for every entry
list whose responses are non-empty and trim-stable (unchanged by whitespace
trimming): reconciling against the question's own response lines returns the
identical entry sequence, with the same timestamps in the same order. -/
theorem c6_reconciliation_idempotent (entries : List Answer) (now : String)
    (h : ∀ a ∈ entries, trimSpace a.response = a.response ∧ a.response ≠ "") :
    rebuildAnswers entries (responsesForQuestion entries) now = entries := by
  rw [rebuildAnswers_eq_reconcileSpec]
  exact reconcileSpec_self now entries h

theorem c6_reconciliation_idempotent_witness :
    rebuildAnswers [⟨"09:00", "a"⟩, ⟨"09:05", "b"⟩]
        (responsesForQuestion [⟨"09:00", "a"⟩, ⟨"09:05", "b"⟩]) "10:00"
      = [⟨"09:00", "a"⟩, ⟨"09:05", "b"⟩] :=
  c6_reconciliation_idempotent [⟨"09:00", "a"⟩, ⟨"09:05", "b"⟩] "10:00" (by decide)

theorem setStatus_statusSeq (st : ModelState) (text : String) :
    (setStatus st text).statusSeq = st.statusSeq + 1 := by
  simp only [setStatus]
  split <;> rfl

theorem setStatus_fields (st : ModelState) (text : String) :
    (setStatus st text).rows = st.rows ∧ (setStatus st text).selected = st.selected
    ∧ (setStatus st text).record = st.record
    ∧ (setStatus st text).deleteConfirm = st.deleteConfirm
    ∧ (setStatus st text).questions = st.questions
    ∧ (setStatus st text).listMode = st.listMode := by
  simp only [setStatus]
  split <;> exact ⟨rfl, rfl, rfl, rfl, rfl, rfl⟩

theorem setStatus_timer (st : ModelState) (text : String) (h1 : text ≠ "")
    (h2 : 0 < st.statusTimeout) :
    (setStatus st text).statusTimer = some (st.statusSeq + 1) := by
  have hc : ¬(text = "" ∨ st.statusTimeout ≤ 0) := by
    rintro (h | h)
    · exact h1 h
    · omega
  simp only [setStatus]
  rw [if_neg hc]

theorem handleStatusTimeout_status (st : ModelState) (seq : Nat) :
    (handleStatusTimeout st seq).status = if seq = st.statusSeq then "" else st.status := by
  simp only [handleStatusTimeout]
  split <;> simp

/-- C7: each new status message takes a strictly larger sequence number and (for a
non-empty message under a positive timeout) arms a timer carrying exactly that
number; a firing timer clears the message only when its carried number equals the
current one, so a timer armed for an older message never clears a newer one. -/
theorem c7_status_sequence_guard (st : ModelState) (text : String) (seq : Nat) :
    (setStatus st text).statusSeq = st.statusSeq + 1
    ∧ st.statusSeq < (setStatus st text).statusSeq
    ∧ (text ≠ "" → 0 < st.statusTimeout →
        (setStatus st text).statusTimer = some ((setStatus st text).statusSeq))
    ∧ ((handleStatusTimeout st seq).status = if seq = st.statusSeq then "" else st.status)
    ∧ (seq ≤ st.statusSeq →
        (handleStatusTimeout (setStatus st text) seq).status = (setStatus st text).status) := by
  refine ⟨setStatus_statusSeq st text, ?_, ?_, handleStatusTimeout_status st seq, ?_⟩
  · rw [setStatus_statusSeq]; omega
  · intro h1 h2
    rw [setStatus_timer st text h1 h2, setStatus_statusSeq]
  · intro hstale
    rw [handleStatusTimeout_status, if_neg]
    rw [setStatus_statusSeq]
    omega

theorem c7_status_sequence_guard_witness :
    (setStatus stSmall "saved").statusTimer = some ((setStatus stSmall "saved").statusSeq)
    ∧ (handleStatusTimeout (setStatus stSmall "saved") 0).status
        = (setStatus stSmall "saved").status :=
  ⟨(c7_status_sequence_guard stSmall "saved" 0).2.2.1 (by decide) (by decide),
   (c7_status_sequence_guard stSmall "saved" 0).2.2.2.2 (by decide)⟩

/-- C9: when launching the editor or writing/reading the scratch file fails, the
editor result carries the error, the handler records it as a recoverable error,
the Record is left unmodified and no save is attempted. -/
theorem c9_editor_failure_no_mutation (st : ModelState) (msg : EditorResultMsg)
    (e now : String) (saveOk : Bool) (h : msg.err = some e) :
    (handleEditorResult st msg now saveOk).1.record = st.record
    ∧ (handleEditorResult st msg now saveOk).2 = none
    ∧ (handleEditorResult st msg now saveOk).1.err = some e
    ∧ (∀ (q : String) (idx : Int),
        handleEditorResult st (editorFailureMsg q idx e) now saveOk
          = ({ st with err := some e }, none)) := by
  refine ⟨?_, ?_, ?_, ?_⟩ <;> simp [handleEditorResult, editorFailureMsg, h]

theorem c9_editor_failure_no_mutation_witness :
    (handleEditorResult stSmall (editorFailureMsg "Q" 0 "launch failed") "10:00" true).1.record
        = stSmall.record
    ∧ (handleEditorResult stSmall (editorFailureMsg "Q" 0 "launch failed") "10:00" true).2
        = none :=
  ⟨(c9_editor_failure_no_mutation stSmall (editorFailureMsg "Q" 0 "launch failed")
      "launch failed" "10:00" true rfl).1,
   (c9_editor_failure_no_mutation stSmall (editorFailureMsg "Q" 0 "launch failed")
      "launch failed" "10:00" true rfl).2.1⟩

/-- C1 (code behavior at the failing input): for the single entry ("09:00", "a") of
question "Q", a single-entry external edit whose buffer is emptied is reported as a
change with responses `[""]`, and the handler keeps the entry, setting its response
to the empty string instead of deleting it; a non-empty replacement ("b") keeps the
timestamp and replaces the text as claimed. -/
theorem c1_empty_single_edit_keeps_entry :
    (editorSuccessMsg "Q" ["a"] 0 "").changed = true
    ∧ (editorSuccessMsg "Q" ["a"] 0 "").responses = [""]
    ∧ (handleEditorResult stSmall (editorSuccessMsg "Q" ["a"] 0 "") "10:00" true).1.record
        = [("Q", [⟨"09:00", ""⟩])]
    ∧ (handleEditorResult stSmall (editorSuccessMsg "Q" ["a"] 0 "b\n") "10:00" true).1.record
        = [("Q", [⟨"09:00", "b"⟩])] := by decide

/-- C2 counterexample: with 21 (more than the threshold 20) questions, `j`/`k` are
the ones that jump — pressing `j` selects the question indexed by the letter `j`
(position 19) instead of moving the cursor down by one, and the jump reports
success, so jump-by-letter via `j`/`k` is reachable. -/
theorem c2_jk_jump_counterexample :
    st21.questions.length = 21
    ∧ st21.disableJKNav = true
    ∧ (listKeyJ st21).selected = 19
    ∧ (moveSelection st21 1).selected = 1
    ∧ (listKeyJ st21).selected ≠ (moveSelection st21 1).selected
    ∧ (listKeyK st21).selected = 20
    ∧ (jumpToIndex st21 'j').2 = true := by decide

/-- C2 (amended): when at least the threshold of 20 questions are present (the
comparison is `>=`, over the merged question set), `j`/`k` are excluded from
navigation and perform jump-to-index; below the threshold they move the selection
and jump-by-letter via `j`/`k` (including `J`/`K` through the default arm) is
unreachable. -/
theorem c2_jk_threshold_behavior (st : ModelState)
    (h : st.disableJKNav = decide (jkDisableThreshold ≤ st.questions.length)) :
    (jkDisableThreshold ≤ st.questions.length →
        listKeyJ st = (jumpToIndex st 'j').1 ∧ listKeyK st = (jumpToIndex st 'k').1)
    ∧ (st.questions.length < jkDisableThreshold →
        listKeyJ st = moveSelection st 1 ∧ listKeyK st = moveSelection st (-1)
        ∧ listKeyOther st 'J' = st ∧ listKeyOther st 'K' = st) := by
  constructor
  · intro hlen
    have hd : st.disableJKNav = true := by rw [h]; simpa using hlen
    exact ⟨by simp [listKeyJ, hd], by simp [listKeyK, hd]⟩
  · intro hlen
    have hd : st.disableJKNav = false := by
      rw [h]
      simpa using Nat.not_le.mpr hlen
    have hcJ : (if Char.isAlpha 'J' then Char.toLower 'J' else 'J') = 'j' := by decide
    have hcK : (if Char.isAlpha 'K' then Char.toLower 'K' else 'K') = 'k' := by decide
    refine ⟨by simp [listKeyJ, hd], by simp [listKeyK, hd], ?_, ?_⟩
    · simp [listKeyOther, hcJ, hd]
    · simp [listKeyOther, hcK, hd]

theorem c2_jk_threshold_behavior_witness :
    listKeyJ st21 = (jumpToIndex st21 'j').1
    ∧ listKeyJ stSmall = moveSelection stSmall 1 :=
  ⟨((c2_jk_threshold_behavior st21 (by decide)).1 (by decide)).1,
   ((c2_jk_threshold_behavior stSmall (by decide)).2 (by decide)).1⟩

theorem recordLookup_recordSet_self (r : Record) (q : String) (l : List Answer) :
    recordLookup (recordSet r q l) q = some l := by
  induction r with
  | nil => simp [recordSet, recordLookup]
  | cons p rest ih =>
    obtain ⟨k, v⟩ := p
    by_cases h : k = q
    · simp [recordSet, recordLookup, h]
    · simp [recordSet, recordLookup, h, ih]

theorem recordLookup_recordErase_self (r : Record) (q : String) :
    recordLookup (recordErase r q) q = none := by
  induction r with
  | nil => rfl
  | cons p rest ih =>
    obtain ⟨k, v⟩ := p
    by_cases h : k = q
    · simp [recordErase, h, ih]
    · simp [recordErase, recordLookup, h, ih]

theorem recordGet_recordSet_self (r : Record) (q : String) (l : List Answer) :
    recordGet (recordSet r q l) q = l := by
  simp [recordGet, recordLookup_recordSet_self]

theorem recordGet_recordErase_self (r : Record) (q : String) :
    recordGet (recordErase r q) q = [] := by
  simp [recordGet, recordLookup_recordErase_self]

theorem mem_recordSet (r : Record) (q : String) (l : List Answer) :
    ∀ p ∈ recordSet r q l, p = (q, l) ∨ p ∈ r := by
  induction r with
  | nil =>
    intro p hp
    simp [recordSet] at hp
    exact Or.inl hp
  | cons pr rest ih =>
    obtain ⟨k, v⟩ := pr
    intro p hp
    by_cases h : k = q
    · subst h
      simp [recordSet] at hp
      rcases hp with hp | hp
      · exact Or.inl hp
      · exact Or.inr (List.mem_cons_of_mem _ hp)
    · simp [recordSet, h] at hp
      rcases hp with hp | hp
      · exact Or.inr (by simp [hp])
      · rcases ih p hp with h2 | h2
        · exact Or.inl h2
        · exact Or.inr (List.mem_cons_of_mem _ h2)

theorem mem_recordErase (r : Record) (q : String) :
    ∀ p ∈ recordErase r q, p ∈ r := by
  induction r with
  | nil => intro p hp; simp [recordErase] at hp
  | cons pr rest ih =>
    obtain ⟨k, v⟩ := pr
    intro p hp
    by_cases h : k = q
    · simp [recordErase, h] at hp
      exact List.mem_cons_of_mem _ (ih p hp)
    · simp [recordErase, h] at hp
      rcases hp with hp | hp
      · simp [hp]
      · exact List.mem_cons_of_mem _ (ih p hp)

theorem noEmpty_recordSet (r : Record) (q : String) (l : List Answer)
    (hr : NoEmptyRecord r) (hl : l ≠ []) : NoEmptyRecord (recordSet r q l) := by
  intro p hp
  rcases mem_recordSet r q l p hp with h | h
  · rw [h]; exact hl
  · exact hr p h

theorem noEmpty_recordErase (r : Record) (q : String) (hr : NoEmptyRecord r) :
    NoEmptyRecord (recordErase r q) :=
  fun p hp => hr p (mem_recordErase r q p hp)

theorem recordGet_deleteEntryRecord (r : Record) (q : String) (idx : Nat) :
    recordGet (deleteEntryRecord r q idx) q = (recordGet r q).eraseIdx idx := by
  simp only [deleteEntryRecord]
  split
  next h => rw [recordGet_recordErase_self, h]
  next h => rw [recordGet_recordSet_self]

theorem noEmpty_deleteEntryRecord (r : Record) (q : String) (idx : Nat)
    (hr : NoEmptyRecord r) : NoEmptyRecord (deleteEntryRecord r q idx) := by
  simp only [deleteEntryRecord]
  split
  next => exact noEmpty_recordErase r q hr
  next h => exact noEmpty_recordSet r q _ hr h

theorem record_refreshQuestions (st : ModelState) :
    (refreshQuestions st).record = st.record := by
  simp only [refreshQuestions]
  split
  · rfl
  split <;> rfl

theorem record_selectQuestionByIndex (st : ModelState) (idx : Nat) :
    (selectQuestionByIndex st idx).record = st.record := by
  simp only [selectQuestionByIndex]
  split
  · rfl
  split <;> rfl

theorem record_selectQuestionByName (st : ModelState) (q : String) :
    (selectQuestionByName st q).record = st.record := by
  simp only [selectQuestionByName]
  cases questionIndexOf st.questions q with
  | none => rfl
  | some idx => exact record_selectQuestionByIndex st idx

theorem performDeleteEntry_valid (st : ModelState) (q : String) (idx : Int) (saveOk : Bool)
    (h0 : 0 ≤ idx) (h1 : idx < ((recordGet st.record q).length : Int)) :
    (performDeleteEntry st q idx saveOk).2 = some (deleteEntryRecord st.record q idx.toNat)
    ∧ (performDeleteEntry st q idx saveOk).1.record
        = deleteEntryRecord st.record q idx.toNat := by
  have hcond : ¬(idx < 0 ∨ idx ≥ ((recordGet st.record q).length : Int)) := by omega
  simp only [performDeleteEntry]
  rw [if_neg hcond]
  by_cases hs : saveOk
  · simp [hs, record_refreshQuestions, record_selectQuestionByName, (setStatus_fields _ _).2.2.1]
  · simp [hs, (setStatus_fields _ _).2.2.1]

/-- C5: the record-level mutations of delete, inline add, single-entry edit and
whole-question edit preserve the invariant that no question key carries an empty
entry sequence (the key is dropped instead); deleting the sole entry removes the
question's key; deleting any entry removes exactly the indexed entry, an
order-preserving operation on the remaining entries; and the Record handed to
SaveDayLog by the delete and whole-question-edit transitions is exactly the
cleaned Record. -/
theorem c5_empty_question_key_removed (r : Record) (q : String) (idx : Nat) (entry : Answer)
    (responses : List String) (now : String) (hr : NoEmptyRecord r) :
    NoEmptyRecord (deleteEntryRecord r q idx)
    ∧ NoEmptyRecord (addEntryRecord r q entry)
    ∧ NoEmptyRecord (singleEditRecord r q idx responses)
    ∧ NoEmptyRecord (questionEditRecord r q responses now)
    ∧ (∀ a, recordGet r q = [a] → recordLookup (deleteEntryRecord r q 0) q = none)
    ∧ recordGet (deleteEntryRecord r q idx) q = (recordGet r q).eraseIdx idx
    ∧ (recordGet (deleteEntryRecord r q idx) q).Sublist (recordGet r q)
    ∧ (∀ (st : ModelState) (saveOk : Bool), st.record = r →
        (idx : Int) < ((recordGet r q).length : Int) →
        (performDeleteEntry st q (idx : Int) saveOk).2 = some (deleteEntryRecord r q idx))
    ∧ (∀ (st : ModelState) (saveOk : Bool), st.record = r →
        (applyQuestionEdit st q responses now saveOk).2
          = some (questionEditRecord r q responses now)) := by
  refine ⟨noEmpty_deleteEntryRecord r q idx hr, ?_, ?_, ?_, ?_, recordGet_deleteEntryRecord r q idx, ?_, ?_, ?_⟩
  · exact noEmpty_recordSet r q _ hr (by simp [addEntryRecord])
  · simp only [singleEditRecord]
    split
    next => exact noEmpty_recordErase r q hr
    next h => exact noEmpty_recordSet r q _ hr h
  · simp only [questionEditRecord]
    split
    next => exact noEmpty_recordErase r q hr
    next h => exact noEmpty_recordSet r q _ hr h
  · intro a ha
    simp only [deleteEntryRecord, ha]
    rw [if_pos (by simp [List.eraseIdx])]
    exact recordLookup_recordErase_self r q
  · rw [recordGet_deleteEntryRecord]
    exact List.eraseIdx_sublist _ idx
  · intro st saveOk hrec hlen
    subst hrec
    have := performDeleteEntry_valid st q (idx : Int) saveOk (by omega) hlen
    simpa using this.1
  · intro st saveOk hrec
    subst hrec
    simp only [applyQuestionEdit]
    by_cases hs : saveOk <;> simp [hs]

theorem c5_empty_question_key_removed_witness :
    recordLookup (deleteEntryRecord [("Q", [⟨"09:00", "a"⟩])] "Q" 0) "Q" = none :=
  (c5_empty_question_key_removed [("Q", [⟨"09:00", "a"⟩])] "Q" 0 ⟨"10:00", "z"⟩ [] "10:00"
      (by intro p hp; simp only [List.mem_singleton] at hp; subst hp; simp)).2.2.2.2.1
    ⟨"09:00", "a"⟩ (by decide)

/-- C3 counterexample: in the pending-confirmation state over ("Q", entry 0),
pressing "x" (not `y`/`n`/escape) does not cancel the pending deletion — the
pending state survives — whereas pressing "n" does cancel it.  The claim's
"any other response cancels" is therefore false on the code. -/
theorem c3_other_key_keeps_pending :
    stC3pending.deleteConfirm = some ⟨"Q", 0⟩
    ∧ ((handleDeleteConfirmationKey stC3pending "x" true).1).1.deleteConfirm = some ⟨"Q", 0⟩
    ∧ ((handleDeleteConfirmationKey stC3pending "x" true).1).1.record = stC3pending.record
    ∧ ((handleDeleteConfirmationKey stC3pending "n" true).1).1.deleteConfirm = none := by
  decide

/-- C3 (amended): with the confirm flag set, a delete request on a valid entry row
only records the pending confirmation without touching the Record and without
saving; from a pending state, `y` deletes exactly one entry (the pending one) and
hands the cleaned Record to SaveDayLog, `n`/`N`/escape cancels without mutation,
and any other key leaves the pending confirmation in place without mutation. -/
theorem c3_confirm_delete_flow (st st2 : ModelState) (q key : String) (idx : Int)
    (pending : DeleteConfirmState) (saveOk : Bool)
    (hc : st.confirmDelete = true)
    (h0 : 0 ≤ idx) (h1 : idx < ((recordGet st.record q).length : Int))
    (hd : st2.deleteConfirm = some pending)
    (hp0 : 0 ≤ pending.entryIndex)
    (hp1 : pending.entryIndex < ((recordGet st2.record pending.question).length : Int)) :
    ((initiateEntryDelete st q idx saveOk).1.record = st.record
      ∧ (initiateEntryDelete st q idx saveOk).2 = none
      ∧ (initiateEntryDelete st q idx saveOk).1.deleteConfirm = some ⟨q, idx⟩)
    ∧ (key = "y" ∨ key = "Y" →
        ((handleDeleteConfirmationKey st2 key saveOk).1).2
            = some (deleteEntryRecord st2.record pending.question pending.entryIndex.toNat)
          ∧ ((handleDeleteConfirmationKey st2 key saveOk).1).1.record
            = deleteEntryRecord st2.record pending.question pending.entryIndex.toNat
          ∧ (recordGet (deleteEntryRecord st2.record pending.question pending.entryIndex.toNat)
                pending.question).length
            = (recordGet st2.record pending.question).length - 1)
    ∧ (key = "n" ∨ key = "N" ∨ key = "esc" →
        ((handleDeleteConfirmationKey st2 key saveOk).1).1.deleteConfirm = none
          ∧ ((handleDeleteConfirmationKey st2 key saveOk).1).1.record = st2.record
          ∧ ((handleDeleteConfirmationKey st2 key saveOk).1).2 = none)
    ∧ (¬(key = "y" ∨ key = "Y") → ¬(key = "n" ∨ key = "N" ∨ key = "esc") →
        ((handleDeleteConfirmationKey st2 key saveOk).1).1.deleteConfirm = some pending
          ∧ ((handleDeleteConfirmationKey st2 key saveOk).1).1.record = st2.record
          ∧ ((handleDeleteConfirmationKey st2 key saveOk).1).2 = none) := by
  have hcond : ¬(idx < 0 ∨ idx ≥ ((recordGet st.record q).length : Int)) := by omega
  have hred : handleDeleteConfirmationKey st2 key saveOk =
      (if key = "y" ∨ key = "Y" then
        (performDeleteEntry
          { st2 with deleteConfirm := none, confirmPrompt := "", showDeletePrompt := false }
          pending.question pending.entryIndex saveOk, true)
      else if key = "n" ∨ key = "N" ∨ key = "esc" then
        ((setStatus
          { st2 with deleteConfirm := none, confirmPrompt := "", showDeletePrompt := false }
          "Delete canceled.", none), true)
      else ((setStatus st2 "Confirm delete with y or n.", none), true)) := by
    unfold handleDeleteConfirmationKey
    rw [hd]
  refine ⟨?_, ?_, ?_, ?_⟩
  · simp only [initiateEntryDelete]
    rw [if_neg hcond, if_pos hc]
    exact ⟨rfl, rfl, rfl⟩
  · intro hy
    rw [hred, if_pos hy]
    have hvalid := performDeleteEntry_valid
      { st2 with deleteConfirm := none, confirmPrompt := "", showDeletePrompt := false }
      pending.question pending.entryIndex saveOk hp0 hp1
    refine ⟨hvalid.1, hvalid.2, ?_⟩
    rw [recordGet_deleteEntryRecord]
    have hlt : pending.entryIndex.toNat < (recordGet st2.record pending.question).length := by
      omega
    rw [List.length_eraseIdx, if_pos hlt]
  · intro hn
    have hny : ¬(key = "y" ∨ key = "Y") := by
      rcases hn with h | h | h <;> subst h <;> decide
    rw [hred, if_neg hny, if_pos hn]
    exact ⟨(setStatus_fields _ _).2.2.2.1, (setStatus_fields _ _).2.2.1, rfl⟩
  · intro hny hnn
    rw [hred, if_neg hny, if_neg hnn]
    refine ⟨?_, (setStatus_fields _ _).2.2.1, rfl⟩
    rw [(setStatus_fields _ _).2.2.2.1, hd]

theorem c3_confirm_delete_flow_witness :
    (initiateEntryDelete stC3 "Q" 0 true).1.deleteConfirm = some ⟨"Q", 0⟩
    ∧ ((handleDeleteConfirmationKey stC3pending "y" true).1).2
        = some (deleteEntryRecord stC3pending.record "Q" 0) :=
  ⟨(c3_confirm_delete_flow stC3 stC3pending "Q" "y" 0 ⟨"Q", 0⟩ true (by decide) (by decide)
      (by decide) (by decide) (by decide) (by decide)).1.2.2,
   ((c3_confirm_delete_flow stC3 stC3pending "Q" "y" 0 ⟨"Q", 0⟩ true (by decide) (by decide)
      (by decide) (by decide) (by decide) (by decide)).2.1 (Or.inl rfl)).1⟩

theorem length_entryRowsFor (q : String) (n : Nat) : (entryRowsFor q n).length = n := by
  simp [entryRowsFor]

theorem question_of_mem_entryRowsFor (q : String) (n : Nat) (row : ListRow)
    (h : row ∈ entryRowsFor q n) : row.question = q := by
  simp only [entryRowsFor, List.mem_map, List.mem_range] at h
  obtain ⟨i, _, hrow⟩ := h
  rw [← hrow]

theorem mem_rebuildRows_question (r : Record) (lm : Bool) :
    ∀ (qs : List String) (row : ListRow), row ∈ rebuildRows qs r lm → row.question ∈ qs := by
  intro qs
  induction qs with
  | nil => intro row h; simp [rebuildRows] at h
  | cons q rest ih =>
    intro row h
    simp only [rebuildRows, List.mem_cons, List.mem_append] at h
    rcases h with h | h | h
    · rw [h]; exact List.mem_cons_self q rest
    · by_cases hlm : lm
      · rw [if_pos hlm] at h
        rw [question_of_mem_entryRowsFor q _ row h]
        exact List.mem_cons_self q rest
      · rw [if_neg hlm] at h
        simp at h
    · exact List.mem_cons_of_mem _ (ih row h)

theorem rowIndexAux_shift (r : Record) :
    ∀ (qs : List String) (i : Nat), i < qs.length → ∀ (offset : Int),
      rowIndexAux qs r i offset = offset + rowIndexAux qs r i 0 := by
  intro qs
  induction qs with
  | nil => intro i h; simp at h
  | cons q rest ih =>
    intro i h offset
    cases i with
    | zero => simp [rowIndexAux]
    | succ i =>
      have h2 : i < rest.length := by simpa using h
      rw [rowIndexAux, rowIndexAux]
      rw [ih i h2 (offset + 1 + (recordGet r q).length),
        ih i h2 (0 + 1 + (recordGet r q).length)]
      ring

theorem rowIndexAux_spec (r : Record) :
    ∀ (qs : List String) (i : Nat) (h : i < qs.length),
      ∃ k : Nat, rowIndexAux qs r i 0 = (k : Int)
        ∧ k < (rebuildRows qs r true).length
        ∧ (rebuildRows qs r true)[k]? = some ⟨RowKind.question, qs.get ⟨i, h⟩, 0⟩ := by
  intro qs
  induction qs with
  | nil => intro i h; simp at h
  | cons q rest ih =>
    intro i h
    cases i with
    | zero =>
      refine ⟨0, rfl, by simp [rebuildRows], by simp [rebuildRows]⟩
    | succ i =>
      have h2 : i < rest.length := by simpa using h
      obtain ⟨k, hk, hlen, hget⟩ := ih i h2
      refine ⟨1 + (recordGet r q).length + k, ?_, ?_, ?_⟩
      · rw [rowIndexAux, rowIndexAux_shift r rest i h2, hk]
        push_cast
        ring
      · simp only [rebuildRows, if_pos, List.length_cons, List.length_append,
          length_entryRowsFor]
        omega
      · have hsplit : rebuildRows (q :: rest) r true
            = ⟨RowKind.question, q, 0⟩ ::
                (entryRowsFor q (recordGet r q).length ++ rebuildRows rest r true) := by
          simp [rebuildRows]
        rw [hsplit]
        have h1 : 1 + (recordGet r q).length + k = ((recordGet r q).length + k) + 1 := by omega
        rw [h1, List.getElem?_cons_succ]
        rw [List.getElem?_append_right (by simp [length_entryRowsFor])]
        simpa [length_entryRowsFor] using hget

theorem length_rebuildRows_false (r : Record) :
    ∀ qs : List String, (rebuildRows qs r false).length = qs.length := by
  intro qs
  induction qs with
  | nil => rfl
  | cons q rest ih => simp [rebuildRows, ih]

theorem get_rebuildRows_false (r : Record) :
    ∀ (qs : List String) (i : Nat) (h : i < qs.length),
      (rebuildRows qs r false)[i]? = some ⟨RowKind.question, qs.get ⟨i, h⟩, 0⟩ := by
  intro qs
  induction qs with
  | nil => intro i h; simp at h
  | cons q rest ih =>
    intro i h
    cases i with
    | zero => simp [rebuildRows]
    | succ i =>
      have h2 : i < rest.length := by simpa using h
      simp only [rebuildRows, if_neg, List.nil_append, List.getElem?_cons_succ]
      simpa using ih i h2

theorem rowIndexForQuestion_spec (qs : List String) (r : Record) (lm : Bool) (i : Nat)
    (h : i < qs.length) :
    ∃ k : Nat, rowIndexForQuestion qs r lm (i : Int) = (k : Int)
      ∧ k < (rebuildRows qs r lm).length
      ∧ (rebuildRows qs r lm)[k]? = some ⟨RowKind.question, qs.get ⟨i, h⟩, 0⟩ := by
  have hcond : ¬((i : Int) < 0 ∨ (i : Int) ≥ (qs.length : Int)) := by omega
  unfold rowIndexForQuestion
  rw [if_neg hcond]
  cases lm with
  | false =>
    rw [if_pos (by simp)]
    exact ⟨i, rfl, by rw [length_rebuildRows_false]; exact h, get_rebuildRows_false r qs i h⟩
  | true =>
    rw [if_neg (by simp)]
    have htn : ((i : Int)).toNat = i := Int.toNat_natCast i
    rw [htn]
    exact rowIndexAux_spec r qs i h

theorem rowIndexForQuestion_lt (qs : List String) (r : Record) (lm : Bool) (idx : Int)
    (h : 0 ≤ rowIndexForQuestion qs r lm idx) :
    rowIndexForQuestion qs r lm idx < ((rebuildRows qs r lm).length : Int) := by
  by_cases hb : idx < 0 ∨ idx ≥ (qs.length : Int)
  · rw [rowIndexForQuestion, if_pos hb] at h
    omega
  · have hidx : idx.toNat < qs.length := by omega
    obtain ⟨k, hk, hlen, _⟩ := rowIndexForQuestion_spec qs r lm idx.toNat hidx
    have heq : ((idx.toNat : Nat) : Int) = idx := Int.toNat_of_nonneg (by omega)
    rw [← heq, hk]
    exact_mod_cast hlen

theorem questionIndexGo_isSome (q : String) :
    ∀ (qs : List String) (i0 : Nat) (acc : Option Nat),
      q ∈ qs ∨ acc.isSome → (questionIndexGo qs i0 acc q).isSome := by
  intro qs
  induction qs with
  | nil =>
    intro i0 acc h
    rcases h with h | h
    · simp at h
    · simpa [questionIndexGo] using h
  | cons x rest ih =>
    intro i0 acc h
    rw [questionIndexGo]
    apply ih
    by_cases hx : x = q
    · right; simp [hx]
    · rcases h with h | h
      · rcases List.mem_cons.mp h with h2 | h2
        · exact absurd h2.symm hx
        · exact Or.inl h2
      · right; simpa [hx] using h

theorem questionIndexGo_sound (q : String) (P : Nat → Prop) :
    ∀ (qs : List String) (i0 : Nat) (acc : Option Nat),
      (∀ j, acc = some j → P j) →
      (∀ (k : Nat) (hk : k < qs.length), qs.get ⟨k, hk⟩ = q → P (i0 + k)) →
      ∀ j, questionIndexGo qs i0 acc q = some j → P j := by
  intro qs
  induction qs with
  | nil => intro i0 acc hacc _ j hj; exact hacc j hj
  | cons x rest ih =>
    intro i0 acc hacc hqs j hj
    rw [questionIndexGo] at hj
    refine ih (i0 + 1) _ ?_ ?_ j hj
    · intro j2 hj2
      by_cases hx : x = q
      · rw [if_pos hx] at hj2
        obtain rfl : i0 = j2 := by simpa using hj2
        have h0 := hqs 0 (by simp) (by simpa using hx)
        simpa using h0
      · rw [if_neg hx] at hj2
        exact hacc j2 hj2
    · intro k hk hget
      have hk2 : k + 1 < (x :: rest).length := by simpa using Nat.succ_lt_succ hk
      have hg : (x :: rest).get ⟨k + 1, hk2⟩ = q := by simpa using hget
      have hp := hqs (k + 1) hk2 hg
      have heq : i0 + (k + 1) = i0 + 1 + k := by omega
      exact heq ▸ hp

theorem questionIndexOf_mem (qs : List String) (q : String) (hmem : q ∈ qs) :
    ∃ i, questionIndexOf qs q = some i ∧ ∃ h : i < qs.length, qs.get ⟨i, h⟩ = q := by
  have h1 := questionIndexGo_isSome q qs 0 none (Or.inl hmem)
  obtain ⟨i, hi⟩ := Option.isSome_iff_exists.mp h1
  refine ⟨i, hi, ?_⟩
  refine questionIndexGo_sound q (fun j => ∃ h : j < qs.length, qs.get ⟨j, h⟩ = q)
    qs 0 none (by intro j hj; simp at hj) ?_ i hi
  intro k hk hget
  exact ⟨by simpa using hk, by simpa using hget⟩

theorem selOK_of_eq (st st2 : ModelState) (hr : st2.rows = st.rows)
    (hs : st2.selected = st.selected) (h : SelOK st) : SelOK st2 := by
  unfold SelOK at *
  rw [hr, hs]
  exact h

theorem selOK_nonneg (st : ModelState) (h : SelOK st) : 0 ≤ st.selected := by
  by_cases hr : st.rows = []
  · rw [h.1 hr]
  · exact (h.2 hr).1

theorem selOK_setStatus (st : ModelState) (text : String) (h : SelOK st) :
    SelOK (setStatus st text) :=
  selOK_of_eq st (setStatus st text) (setStatus_fields st text).1
    (setStatus_fields st text).2.1 h

theorem refreshQuestions_WF (st : ModelState) : WFState (refreshQuestions st) := by
  unfold WFState
  simp only [refreshQuestions]
  split
  · exact ⟨rfl, rfl⟩
  split <;> exact ⟨rfl, rfl⟩

theorem refreshQuestions_selOK (st : ModelState) (h : 0 ≤ st.selected) :
    SelOK (refreshQuestions st) := by
  unfold SelOK
  simp only [refreshQuestions]
  split
  next hempty => exact ⟨fun _ => rfl, fun hne => absurd hempty hne⟩
  next hne1 =>
    have hpos : 0 < (rebuildRows (mergeQuestions st.cfgQuestions st.record) st.record
        st.listMode).length := List.length_pos.mpr hne1
    split
    next hge =>
      refine ⟨fun hc => absurd hc hne1, fun _ => ⟨?_, ?_⟩⟩ <;> ((try dsimp only); omega)
    next hlt =>
      try dsimp only at hlt
      refine ⟨fun hc => absurd hc hne1, fun _ => ⟨?_, ?_⟩⟩ <;> ((try dsimp only); omega)

theorem moveSelection_selOK (st : ModelState) (delta : Int) : SelOK (moveSelection st delta) := by
  unfold SelOK
  simp only [moveSelection]
  by_cases hr : st.rows = []
  · rw [if_pos hr]
    exact ⟨fun _ => rfl, fun hne => absurd hr hne⟩
  · rw [if_neg hr]
    have hpos : 0 < st.rows.length := List.length_pos.mpr hr
    refine ⟨fun hc => absurd hc hr, fun _ => ⟨?_, ?_⟩⟩ <;>
      ((try dsimp only); split_ifs <;> omega)

theorem jumpToIndex_selOK (st : ModelState) (c : Char) (hwf : WFState st) (h : SelOK st) :
    SelOK ((jumpToIndex st c).1) := by
  simp only [jumpToIndex]
  split
  next => exact h
  next idx heq =>
    split
    next => exact h
    next hb =>
      split
      next => exact h
      next hge =>
        have h0 : 0 ≤ rowIndexForQuestion st.questions st.record st.listMode (idx : Int) := by
          omega
        have hlt := rowIndexForQuestion_lt st.questions st.record st.listMode (idx : Int) h0
        rw [← hwf.2] at hlt
        have hrows : st.rows ≠ [] := by
          intro he
          rw [he] at hlt
          simp at hlt
          omega
        exact ⟨fun hc => absurd hc hrows, fun _ => ⟨h0, hlt⟩⟩

theorem selectQuestionByIndex_selOK (st : ModelState) (idx : Nat) (hwf : WFState st)
    (h : SelOK st) : SelOK (selectQuestionByIndex st idx) := by
  simp only [selectQuestionByIndex]
  split
  next => exact h
  next hb =>
    split
    next hge =>
      have h0 : 0 ≤ rowIndexForQuestion st.questions st.record st.listMode (idx : Int) := hge
      have hlt := rowIndexForQuestion_lt st.questions st.record st.listMode (idx : Int) h0
      rw [← hwf.2] at hlt
      have hrows : st.rows ≠ [] := by
        intro he
        rw [he] at hlt
        simp at hlt
        omega
      exact ⟨fun hc => absurd hc hrows, fun _ => ⟨h0, hlt⟩⟩
    next => exact h

theorem selectQuestionByName_selOK (st : ModelState) (q : String) (hwf : WFState st)
    (h : SelOK st) : SelOK (selectQuestionByName st q) := by
  simp only [selectQuestionByName]
  cases questionIndexOf st.questions q with
  | none => exact h
  | some idx => exact selectQuestionByIndex_selOK st idx hwf h

theorem toggleListMode_selOK (st : ModelState) (h : 0 ≤ st.selected) :
    SelOK (toggleListMode st) := by
  have h1 : SelOK (refreshQuestions { st with listMode := !st.listMode }) :=
    refreshQuestions_selOK _ h
  have hwf1 : WFState (refreshQuestions { st with listMode := !st.listMode }) :=
    refreshQuestions_WF _
  simp only [toggleListMode]
  cases hcr : currentRow st with
  | none =>
    dsimp only
    rw [if_neg (by simp)]
    exact h1
  | some row =>
    dsimp only
    by_cases hq : row.question = ""
    · rw [hq, if_neg (by simp)]
      exact h1
    · rw [if_pos hq]
      cases hqi : questionIndexOf
          (refreshQuestions { st with listMode := !st.listMode }).questions row.question with
      | none => exact h1
      | some idx =>
        dsimp only
        split
        next hge =>
          have hlt := rowIndexForQuestion_lt
            (refreshQuestions { st with listMode := !st.listMode }).questions
            (refreshQuestions { st with listMode := !st.listMode }).record
            (refreshQuestions { st with listMode := !st.listMode }).listMode (idx : Int) hge
          rw [← hwf1.2] at hlt
          have hrows : (refreshQuestions { st with listMode := !st.listMode }).rows ≠ [] := by
            intro he
            rw [he] at hlt
            simp at hlt
            omega
          exact ⟨fun hc => absurd hc hrows, fun _ => ⟨hge, hlt⟩⟩
        next => exact h1

theorem performDeleteEntry_selOK (st : ModelState) (q : String) (idx : Int) (saveOk : Bool)
    (h : SelOK st) : SelOK ((performDeleteEntry st q idx saveOk).1) := by
  simp only [performDeleteEntry]
  split
  next => exact selOK_setStatus st _ h
  next =>
    split
    next => exact selOK_setStatus _ _ (selOK_of_eq st _ rfl rfl h)
    next =>
      apply selectQuestionByName_selOK _ _ (refreshQuestions_WF _)
      apply refreshQuestions_selOK
      rw [(setStatus_fields _ _).2.1]
      exact selOK_nonneg st h

theorem initiateEntryDelete_selOK (st : ModelState) (q : String) (idx : Int) (saveOk : Bool)
    (h : SelOK st) : SelOK ((initiateEntryDelete st q idx saveOk).1) := by
  simp only [initiateEntryDelete]
  split
  next => exact selOK_setStatus st _ h
  next =>
    split
    next => exact selOK_of_eq st _ rfl rfl h
    next => exact performDeleteEntry_selOK st q idx saveOk h

theorem handleDeleteConfirmationKey_selOK (st : ModelState) (key : String) (saveOk : Bool)
    (h : SelOK st) : SelOK (((handleDeleteConfirmationKey st key saveOk).1).1) := by
  simp only [handleDeleteConfirmationKey]
  cases st.deleteConfirm with
  | none => exact h
  | some pending =>
    dsimp only
    split
    next => exact performDeleteEntry_selOK _ _ _ _ (selOK_of_eq st _ rfl rfl h)
    next =>
      split
      next => exact selOK_setStatus _ _ (selOK_of_eq st _ rfl rfl h)
      next => exact selOK_setStatus st _ h

theorem applySingleEntryEdit_selOK (st : ModelState) (q : String) (idx : Int)
    (responses : List String) (saveOk : Bool) (h : SelOK st) :
    SelOK ((applySingleEntryEdit st q idx responses saveOk).1) := by
  simp only [applySingleEntryEdit]
  split
  next => exact h
  next =>
    split
    next => exact selOK_of_eq st _ rfl rfl h
    next =>
      apply refreshQuestions_selOK
      rw [(setStatus_fields _ _).2.1]
      exact selOK_nonneg st h

theorem applyQuestionEdit_selOK (st : ModelState) (q : String) (responses : List String)
    (now : String) (saveOk : Bool) (h : SelOK st) :
    SelOK ((applyQuestionEdit st q responses now saveOk).1) := by
  simp only [applyQuestionEdit]
  split
  next => exact selOK_of_eq st _ rfl rfl h
  next =>
    apply refreshQuestions_selOK
    rw [(setStatus_fields _ _).2.1]
    exact selOK_nonneg st h

theorem handleEditorResult_selOK (st : ModelState) (msg : EditorResultMsg) (now : String)
    (saveOk : Bool) (h : SelOK st) : SelOK ((handleEditorResult st msg now saveOk).1) := by
  simp only [handleEditorResult]
  cases msg.err with
  | some e => exact selOK_of_eq st _ rfl rfl h
  | none =>
    dsimp only
    split
    next => exact selOK_setStatus st _ h
    next =>
      split
      next => exact applySingleEntryEdit_selOK st _ _ _ _ h
      next => exact applyQuestionEdit_selOK st _ _ _ _ h

theorem saveInlineEntry_selOK (st : ModelState) (q input now : String) (saveOk : Bool)
    (h : SelOK st) : SelOK ((saveInlineEntry st q input now saveOk).1) := by
  simp only [saveInlineEntry]
  split
  next => exact selOK_setStatus st _ h
  next =>
    split
    next => exact selOK_of_eq st _ rfl rfl h
    next =>
      apply refreshQuestions_selOK
      rw [(setStatus_fields _ _).2.1]
      exact selOK_nonneg st h

theorem reloadDay_selOK (st : ModelState) (newRecord : Record) (dayLabel : String) :
    SelOK (reloadDay st newRecord dayLabel) := by
  simp only [reloadDay]
  apply selOK_setStatus
  exact refreshQuestions_selOK _ (by simp)

/-- C10: after each selection-affecting transition of the session model the
selection index is in bounds: `0 ≤ selected < rows.length` when the row
sequence is non-empty and `selected = 0` when it is empty. -/
theorem c10_selection_always_in_bounds (st : ModelState) (c : Char) (delta idx : Int)
    (q key input now dayLabel : String) (msg : EditorResultMsg) (newRecord : Record)
    (saveOk listMode confirmDelete : Bool) (cfg : List String) (timeout : Int)
    (hs : SelOK st) (hwf : WFState st) :
    SelOK (moveSelection st delta)
    ∧ SelOK ((jumpToIndex st c).1)
    ∧ SelOK (listKeyJ st) ∧ SelOK (listKeyK st) ∧ SelOK (listKeyOther st c)
    ∧ SelOK (refreshQuestions st)
    ∧ SelOK (toggleListMode st)
    ∧ SelOK ((initiateEntryDelete st q idx saveOk).1)
    ∧ SelOK (((handleDeleteConfirmationKey st key saveOk).1).1)
    ∧ SelOK ((performDeleteEntry st q idx saveOk).1)
    ∧ SelOK ((handleEditorResult st msg now saveOk).1)
    ∧ SelOK ((saveInlineEntry st q input now saveOk).1)
    ∧ SelOK (reloadDay st newRecord dayLabel)
    ∧ SelOK (newModel cfg newRecord listMode confirmDelete timeout) := by
  have hnn := selOK_nonneg st hs
  refine ⟨moveSelection_selOK st delta, jumpToIndex_selOK st c hwf hs, ?_, ?_, ?_,
    refreshQuestions_selOK st hnn, toggleListMode_selOK st hnn,
    initiateEntryDelete_selOK st q idx saveOk hs,
    handleDeleteConfirmationKey_selOK st key saveOk hs,
    performDeleteEntry_selOK st q idx saveOk hs,
    handleEditorResult_selOK st msg now saveOk hs,
    saveInlineEntry_selOK st q input now saveOk hs,
    reloadDay_selOK st newRecord dayLabel,
    refreshQuestions_selOK _ (by simp)⟩
  · unfold listKeyJ
    split
    · exact jumpToIndex_selOK st 'j' hwf hs
    · exact moveSelection_selOK st 1
  · unfold listKeyK
    split
    · exact jumpToIndex_selOK st 'k' hwf hs
    · exact moveSelection_selOK st (-1)
  · simp only [listKeyOther]
    split <;> split <;>
      first
        | exact hs
        | exact jumpToIndex_selOK st _ hwf hs

theorem c10_selection_always_in_bounds_witness :
    SelOK (moveSelection stC3 5) ∧ SelOK (toggleListMode stC3) :=
  ⟨(c10_selection_always_in_bounds stC3 'a' 5 0 "Q" "y" "x" "10:00" "today"
      (editorFailureMsg "Q" 0 "e") [] true true true ["Q"] 1000
      (by decide) (by decide)).1,
   (c10_selection_always_in_bounds stC3 'a' 5 0 "Q" "y" "x" "10:00" "today"
      (editorFailureMsg "Q" 0 "e") [] true true true ["Q"] 1000
      (by decide) (by decide)).2.2.2.2.2.2.1⟩

theorem cfgQuestions_refreshQuestions (st : ModelState) :
    (refreshQuestions st).cfgQuestions = st.cfgQuestions := by
  simp only [refreshQuestions]
  split
  · rfl
  split <;> rfl

theorem currentRow_mem (st : ModelState) (row : ListRow) (h : currentRow st = some row) :
    row ∈ st.rows := by
  unfold currentRow at h
  split at h
  · exact absurd h (by simp)
  · obtain ⟨hlt, rfl⟩ := List.getElem?_eq_some.mp h
    exact List.getElem_mem hlt

theorem currentRow_eq_of_selected (st : ModelState) (k : Nat) (hsel : st.selected = (k : Int))
    (hk : k < st.rows.length) : currentRow st = st.rows[k]? := by
  have hne : st.rows ≠ [] := by
    intro he
    rw [he] at hk
    simp at hk
  have hcond : ¬(st.rows = [] ∨ st.selected < 0 ∨ st.selected ≥ (st.rows.length : Int)) := by
    rintro (he | hlt | hge)
    · exact hne he
    · rw [hsel] at hlt; omega
    · rw [hsel] at hge; omega
  unfold currentRow
  rw [if_neg hcond, hsel]
  simp

theorem toggleListMode_WF (st : ModelState) : WFState (toggleListMode st) := by
  have hwf1 : WFState (refreshQuestions { st with listMode := !st.listMode }) :=
    refreshQuestions_WF _
  simp only [toggleListMode]
  cases hcr : currentRow st with
  | none =>
    dsimp only
    rw [if_neg (by simp)]
    exact hwf1
  | some row =>
    dsimp only
    by_cases hq : row.question = ""
    · rw [hq, if_neg (by simp)]
      exact hwf1
    · rw [if_pos hq]
      cases hqi : questionIndexOf
          (refreshQuestions { st with listMode := !st.listMode }).questions row.question with
      | none => exact hwf1
      | some idx =>
        dsimp only
        split
        next => exact ⟨hwf1.1, hwf1.2⟩
        next => exact hwf1

theorem toggleListMode_question (st : ModelState) (row : ListRow)
    (hwf : WFState st) (hrow : currentRow st = some row) (hq : row.question ≠ "") :
    ∃ row2, currentRow (toggleListMode st) = some row2
      ∧ row2.question = row.question ∧ row2.kind = RowKind.question := by
  have hmem : row ∈ st.rows := currentRow_mem st row hrow
  have hqmem : row.question ∈ st.questions := by
    rw [hwf.2] at hmem
    exact mem_rebuildRows_question st.record st.listMode st.questions row hmem
  set st1 := refreshQuestions { st with listMode := !st.listMode } with hst1
  have hwf1 : WFState st1 := refreshQuestions_WF _
  have hq1 : st1.questions = st.questions := by
    rw [hwf1.1, cfgQuestions_refreshQuestions, record_refreshQuestions]
    exact hwf.1.symm
  obtain ⟨i, hqi, hlen, hget⟩ := questionIndexOf_mem st1.questions row.question (by
    rw [hq1]; exact hqmem)
  obtain ⟨k, hk, hklen, hkget⟩ :=
    rowIndexForQuestion_spec st1.questions st1.record st1.listMode i hlen
  have hred : toggleListMode st
      = (if rowIndexForQuestion st1.questions st1.record st1.listMode (i : Int) ≥ 0
          then { st1 with
            selected := rowIndexForQuestion st1.questions st1.record st1.listMode (i : Int) }
          else st1) := by
    simp only [toggleListMode, hrow]
    rw [if_pos hq, ← hst1, hqi]
  refine ⟨⟨RowKind.question, row.question, 0⟩, ?_, rfl, rfl⟩
  rw [hred, hk, if_pos (by exact_mod_cast Int.natCast_nonneg k)]
  have hcr : currentRow { st1 with selected := (k : Int) } = st1.rows[k]? :=
    currentRow_eq_of_selected _ k rfl (by rw [hwf1.2]; exact hklen)
  rw [hcr, hwf1.2, hkget, hget]

/-- C8 counterexample: a configuration may contain the empty-string question name;
with questions ["A", ""] (where "A" holds one entry) and the "" question row
selected, toggling list mode neither re-selects the "" question nor falls back to
position 0 — the selection stays at the clamped index 1, which is now an entry row
of question "A", and a second toggle lands on question "A", not on the original
"" question.  The claim as stated is therefore false on the code. -/
theorem c8_empty_question_counterexample :
    (currentRow stC8).map (fun r => r.question) = some ""
    ∧ (currentRow (toggleListMode stC8)).map (fun r => r.question) = some "A"
    ∧ (toggleListMode stC8).selected = 1
    ∧ (toggleListMode stC8).selected ≠ 0
    ∧ (currentRow (toggleListMode (toggleListMode stC8))).map (fun r => r.question)
        = some "A" := by decide

/-- C8 (amended): provided the previously selected row's question text is non-empty,
toggling list mode re-selects that question (its header row), and toggling twice
again lands on the originally selected question; when no row is selected the code
keeps selection 0, and for an empty-string question name the selection is merely
clamped, not re-targeted. -/
theorem c8_toggle_reselects_question (st : ModelState) (row : ListRow)
    (hwf : WFState st) (hrow : currentRow st = some row) (hq : row.question ≠ "") :
    (∃ row2, currentRow (toggleListMode st) = some row2 ∧ row2.question = row.question)
    ∧ (∃ row3, currentRow (toggleListMode (toggleListMode st)) = some row3
        ∧ row3.question = row.question) := by
  obtain ⟨row2, h2, h2q, _⟩ := toggleListMode_question st row hwf hrow hq
  refine ⟨⟨row2, h2, h2q⟩, ?_⟩
  obtain ⟨row3, h3, h3q, _⟩ := toggleListMode_question (toggleListMode st) row2
    (toggleListMode_WF st) h2 (by rw [h2q]; exact hq)
  exact ⟨row3, h3, by rw [h3q, h2q]⟩

theorem c8_toggle_reselects_question_witness :
    ∃ row2, currentRow (toggleListMode stC3) = some row2 ∧ row2.question = "Q" := by
  have h := (c8_toggle_reselects_question stC3 ⟨RowKind.question, "Q", 0⟩ (by decide)
    (by decide) (by decide)).1
  simpa using h

end Wlog
